import Mathlib

/-!
Shallow embedding of the output-sanitization pipeline of `src/server.js`
(`sanitizeOutput`, together with its helper `normalizeVariables` and the
hoisted `equipmentPattern` / `methodPattern` regular expressions).

Strings are modelled as `List Char`; each JavaScript `String.replace`
call with a regular expression is hand-compiled to a scanner that walks
the character list, reproducing the engine's leftmost-match, ordered
alternation and greedy/backtracking behaviour of the concrete patterns
involved.  Fuel (bounded by the input length) makes every scanner a
structurally recursive total function, so all definitions evaluate by
kernel reduction.
-/

namespace Server

/-- JavaScript `\s` (WhiteSpace ∪ LineTerminator) for non-unicode regexes. -/
def isJsSpace (c : Char) : Bool :=
  c = '\t' || c = '\n' || c = '\x0b' || c = '\x0c' || c = '\r' || c = ' ' ||
  c = '\u00A0' || c = '\u1680' || c = '\u2000' || c = '\u2001' ||
  c = '\u2002' || c = '\u2003' || c = '\u2004' || c = '\u2005' ||
  c = '\u2006' || c = '\u2007' || c = '\u2008' || c = '\u2009' ||
  c = '\u200A' || c = '\u2028' || c = '\u2029' || c = '\u202F' ||
  c = '\u205F' || c = '\u3000' || c = '\uFEFF'

/-- JavaScript line terminators (what multiline `^` / `$` anchor around). -/
def isLineTerm (c : Char) : Bool :=
  c = '\n' || c = '\r' || c = '\u2028' || c = '\u2029'

/-- Horizontal whitespace `[^\S\r\n]`: any `\s` character except CR and LF. -/
def isHorizWs (c : Char) : Bool :=
  isJsSpace c && !(c = '\r') && !(c = '\n')

def isAsciiLower (c : Char) : Bool := 'a' ≤ c && c ≤ 'z'

def isAsciiUpper (c : Char) : Bool := 'A' ≤ c && c ≤ 'Z'

def isAsciiAlpha (c : Char) : Bool := isAsciiLower c || isAsciiUpper c

def isAsciiDigit (c : Char) : Bool := '0' ≤ c && c ≤ '9'

/-- JavaScript regex word characters `[A-Za-z0-9_]` (for `\b`). -/
def isWordChar (c : Char) : Bool :=
  isAsciiAlpha c || isAsciiDigit c || c = '_'

/-- Case canonicalisation used by the `i` flag, restricted to the characters
occurring in the source's patterns (ASCII letters plus the `ö`/`ô` of
`Schrödinger` and the method-name list). -/
def jsCanon (c : Char) : Char :=
  if isAsciiLower c then Char.ofNat (c.toNat - 32)
  else if c = 'ö' then 'Ö'
  else if c = 'ô' then 'Ô'
  else c

def apos : Char := Char.ofNat 39

def backtick : Char := Char.ofNat 96

def lbrace : Char := '\x7b'

def rbrace : Char := '\x7d'

/-- Membership in a literal character class given as a string. -/
def inClass (cls : String) (c : Char) : Bool := cls.data.contains c

/-- The lower-case Greek letters and `Δ∇∂` appearing in the source classes. -/
def greekChars : String := "αβγδεθλμρσφχψωΔ∇∂"

/-- Upper-case/folded characters that the `i` flag adds to the Greek class
(canonicalisation maps each listed lower-case Greek letter and `π` to its
upper-case form, and `ς`/`µ` fold onto `Σ`/`Μ` as well). -/
def greekCiExtra : String := "ΑΒΓΕΘΛΜΡΣΦΧΨΩΠςµ"

/-- Class of line 121 / line 114 without the `i` flag:
`[0-9+\-*/=()^√π∑∫αβγδεθλμρσφχψωΔ∇∂]`. -/
def mathSymChar (c : Char) : Bool :=
  isAsciiDigit c || inClass "+-*/=()^√π∑∫" c || inClass greekChars c

/-- The same class under the `i` flag (lines 114, 121). -/
def mathSymCharCi (c : Char) : Bool :=
  mathSymChar c || inClass greekCiExtra c

/-- The extra characters of lines 81/107/123:
`[xyzabcXYZABC≤≥≠≈±×÷°]` (no case issues arise under `i`). -/
def extraAllowChar (c : Char) : Bool :=
  inClass "xyzabcXYZABC≤≥≠≈±×÷°" c

/-- The full allow-list class of lines 81 and 107 (no `i` flag there). -/
def allowChar (c : Char) : Bool :=
  mathSymChar c || extraAllowChar c

/-- `[0-9+\-*/=()]` of lines 125/127 (the `i` flag is inert on it). -/
def arithChar (c : Char) : Bool :=
  isAsciiDigit c || inClass "+-*/=()" c

/-- Left operand class of line 129 under `i`. -/
def varStartCharCi (c : Char) : Bool :=
  isAsciiAlpha c || inClass greekChars c || inClass greekCiExtra c

/-- Relational operator class `[=<>≤≥≠≈]` of line 129. -/
def relChar (c : Char) : Bool := inClass "=<>≤≥≠≈" c

/-- Right operand class of line 129 under `i`. -/
def rhsCharCi (c : Char) : Bool :=
  isAsciiAlpha c || isAsciiDigit c || inClass greekChars c ||
  inClass greekCiExtra c || inClass "+-*/()^√π∑∫²³" c

/-- Case-insensitive literal match at the front of the input; on success
returns the rest of the input after the pattern. -/
def ciStarts : List Char → List Char → Option (List Char)
  | [], s => some s
  | _ :: _, [] => none
  | p :: ps, c :: cs => if jsCanon p = jsCanon c then ciStarts ps cs else none

/-- A `\b` assertion between a last matched character and the remaining
input (word boundary = wordness changes; end of input counts as non-word). -/
def boundaryAfter (lastC : Char) (rest : List Char) : Bool :=
  match rest with
  | [] => isWordChar lastC
  | c :: _ => isWordChar lastC != isWordChar c

/-- Try an ordered alternation of case-insensitive literals at the current
position, each followed by a `\b` assertion; returns the match length.
(All alternatives used in the source begin with a word character, so the
leading `\b` is checked once by the caller via the previous character.) -/
def tryAlts : List (List Char) → List Char → Option Nat
  | [], _ => none
  | alt :: more, s =>
    match ciStarts alt s with
    | some rest =>
      match alt.getLast? with
      | some lc => if boundaryAfter lc rest then some alt.length else tryAlts more s
      | none => tryAlts more s
    | none => tryAlts more s

/-- One step of a global `String.replace`: a matcher looks at the current
suffix (plus a one-character scanner state) and reports the match length,
the replacement text, and the scanner state holding after the match. -/
def scanSt {σ : Type} (m : σ → List Char → Option (Nat × List Char × σ))
    (upd : Char → σ) : Nat → σ → List Char → List Char
  | 0, _, s => s
  | _ + 1, _, [] => []
  | fuel + 1, st, c :: rest =>
    match m st (c :: rest) with
    | some (k, rep, st') => rep ++ scanSt m upd fuel st' (rest.drop (k - 1))
    | none => c :: scanSt m upd fuel (upd c) rest

/-- State update for scanners that track "previous character is a word
character" (for `\b`). -/
def updWord (c : Char) : Bool := isWordChar c

/-- State update for scanners that track "at the start of a line" (for the
multiline `^` anchor). -/
def updLineStart (c : Char) : Bool := isLineTerm c

def updUnit (_ : Char) : Unit := ()

/-! ### Stage A: whole-text regex passes (server.js lines 64-91) -/

/-- `/\\?\[\\?\]/g` (line 66): an optional backslash, `[`, an optional
backslash, `]` — i.e. only adjacent (possibly escaped) bracket pairs. -/
def matchBracketPair (s : List Char) : Option (Nat × List Char × Unit) :=
  match s with
  | c :: rest =>
    if c = '\\' then
      match rest with
      | '[' :: '\\' :: ']' :: _ => some (4, [], ())
      | '[' :: ']' :: _ => some (3, [], ())
      | _ => none
    else if c = '[' then
      match rest with
      | '\\' :: ']' :: _ => some (3, [], ())
      | ']' :: _ => some (2, [], ())
      | _ => none
    else none
  | [] => none

def stripLatexBrackets (s : List Char) : List Char :=
  scanSt (fun _ => matchBracketPair) updUnit (s.length + 1) () s

/-- `/\$\$?/g` (line 67): every `$` disappears, two at a time when doubled. -/
def matchDollar (s : List Char) : Option (Nat × List Char × Unit) :=
  match s with
  | c :: rest =>
    if c = '$' then
      match rest with
      | c2 :: _ => if c2 = '$' then some (2, [], ()) else some (1, [], ())
      | [] => some (1, [], ())
    else none
  | [] => none

def stripDollars (s : List Char) : List Char :=
  scanSt (fun _ => matchDollar) updUnit (s.length + 1) () s

/-- `/\\text\{[^}]*\}/g` (line 68). -/
def matchTextBlock (s : List Char) : Option (Nat × List Char × Unit) :=
  match s with
  | c :: rest =>
    if c = '\\' then
      if rest.take 5 = ['t', 'e', 'x', 't', lbrace] then
        let r2 := rest.drop 5
        let inner := r2.takeWhile (fun x => x != rbrace)
        if (r2.drop inner.length).isEmpty then none
        else some (6 + inner.length + 1, [], ())
      else none
    else none
  | [] => none

def stripTextBlocks (s : List Char) : List Char :=
  scanSt (fun _ => matchTextBlock) updUnit (s.length + 1) () s

/-- `/\\frac\{[^}]*\}\{[^}]*\}/g` (line 69): the whole macro, operand
groups included, is the match (the replacement is empty). -/
def matchFracBlock (s : List Char) : Option (Nat × List Char × Unit) :=
  match s with
  | c :: rest =>
    if c = '\\' then
      if rest.take 5 = ['f', 'r', 'a', 'c', lbrace] then
        let r2 := rest.drop 5
        let inner1 := r2.takeWhile (fun x => x != rbrace)
        match r2.drop inner1.length with
        | _ :: b2 :: r5 =>
          if b2 = lbrace then
            let inner2 := r5.takeWhile (fun x => x != rbrace)
            if (r5.drop inner2.length).isEmpty then none
            else some (9 + inner1.length + inner2.length, [], ())
          else none
        | _ => none
      else none
    else none
  | [] => none

def stripFracBlocks (s : List Char) : List Char :=
  scanSt (fun _ => matchFracBlock) updUnit (s.length + 1) () s

/-- `/\/\/.*$/gm` (line 71): `//` to the end of its line (`.` stops at any
line terminator, after which multiline `$` always holds). -/
def matchLineComment (s : List Char) : Option (Nat × List Char × Unit) :=
  match s with
  | c :: rest =>
    if c = '/' then
      match rest with
      | c2 :: rest2 =>
        if c2 = '/' then some (2 + (rest2.takeWhile (fun x => !isLineTerm x)).length, [], ())
        else none
      | [] => none
    else none
  | [] => none

def stripLineComments (s : List Char) : List Char :=
  scanSt (fun _ => matchLineComment) updUnit (s.length + 1) () s

/-- Distance to the first `*/` in the input, if any. -/
def findCloseCmt : List Char → Option Nat
  | '*' :: '/' :: _ => some 0
  | _ :: rest => (findCloseCmt rest).map (· + 1)
  | [] => none

/-- `/\/\*[\s\S]*?\*\//g` (line 72): lazy block comments. -/
def matchBlockComment (s : List Char) : Option (Nat × List Char × Unit) :=
  match s with
  | c :: rest =>
    if c = '/' then
      match rest with
      | c2 :: rest2 =>
        if c2 = '*' then
          match findCloseCmt rest2 with
          | some i => some (2 + i + 2, [], ())
          | none => none
        else none
      | [] => none
    else none
  | [] => none

def stripBlockComments (s : List Char) : List Char :=
  scanSt (fun _ => matchBlockComment) updUnit (s.length + 1) () s

/-- `/#.*$/gm` (line 73). -/
def matchHashComment (s : List Char) : Option (Nat × List Char × Unit) :=
  match s with
  | c :: rest =>
    if c = '#' then some (1 + (rest.takeWhile (fun x => !isLineTerm x)).length, [], ())
    else none
  | [] => none

def stripHashComments (s : List Char) : List Char :=
  scanSt (fun _ => matchHashComment) updUnit (s.length + 1) () s

/-- `/^\s*\d+\.\s*/gm` (line 75); `\s` may cross line breaks, and the state
after the match records whether its last character was a line terminator
(so that the engine's next `^` test is faithful). -/
def matchStepNumber (atLS : Bool) (s : List Char) : Option (Nat × List Char × Bool) :=
  if atLS then
    let w1 := s.takeWhile isJsSpace
    let r1 := s.drop w1.length
    let d := r1.takeWhile isAsciiDigit
    if d.isEmpty then none else
    match r1.drop d.length with
    | c :: r2 =>
      if c = '.' then
        let w2 := r2.takeWhile isJsSpace
        let lastC := match w2.getLast? with
          | some x => x
          | none => '.'
        some (w1.length + d.length + 1 + w2.length, [], isLineTerm lastC)
      else none
    | [] => none
  else none

def stripStepNumbers (s : List Char) : List Char :=
  scanSt matchStepNumber updLineStart (s.length + 1) true s

/-- `/\b(Step\s+\d+:|Step\s+\d+)\b/gi` (line 76).  The first alternative
needs a word character after the colon; otherwise the second matches and
the colon survives. -/
def matchStepLabel (prevW : Bool) (s : List Char) : Option (Nat × List Char × Bool) :=
  if prevW then none else
  match ciStarts ['S', 't', 'e', 'p'] s with
  | some r1 =>
    let w := r1.takeWhile isJsSpace
    if w.isEmpty then none else
    let r2 := r1.drop w.length
    let d := r2.takeWhile isAsciiDigit
    if d.isEmpty then none else
    match r2.drop d.length with
    | c :: r3 =>
      if c = ':' && boundaryAfter ':' r3 then
        some (4 + w.length + d.length + 1, [], false)
      else if !isWordChar c then
        some (4 + w.length + d.length, [], true)
      else none
    | [] => some (4 + w.length + d.length, [], true)
  | none => none

def stripStepLabels (s : List Char) : List Char :=
  scanSt matchStepLabel updWord (s.length + 1) false s

/-- Wordness of the last character of the `k`-character match at `s`. -/
def lastWordness (s : List Char) (k : Nat) : Bool :=
  match (s.take k).getLast? with
  | some c => isWordChar c
  | none => false

/-- Shared matcher shape for `/\b(w1|w2|...)\b/gi` word/phrase removal. -/
def matchWordAlts (alts : List (List Char)) (prevW : Bool) (s : List Char) :
    Option (Nat × List Char × Bool) :=
  if prevW then none else
  match tryAlts alts s with
  | some k => some (k, [], lastWordness s k)
  | none => none

/-- The single-word discourse list of line 78. -/
def discourseWords : List (List Char) :=
  (["Therefore", "Thus", "Hence", "So", "Answer:", "Solution:", "Result:",
    "Calculate", "Apply", "Total", "Each", "The", "This", "That", "We",
    "You", "I"]).map String.data

def stripDiscourseWords (s : List Char) : List Char :=
  scanSt (matchWordAlts discourseWords) updWord (s.length + 1) false s

/-- The phrase list of line 79. -/
def discoursePhrases : List (List Char) :=
  (["The answer is", "The result is", "The solution is", "We have",
    "We get", "We find", "Note:", "Note that", "Apply the formula",
    "Calculate the", "Total apples", "Total people", "Each person",
    "Each person can", "can have"]).map String.data

def stripDiscoursePhrases (s : List Char) : List Char :=
  scanSt (matchWordAlts discoursePhrases) updWord (s.length + 1) false s

/-- Index of the last line terminator in the list, if any. -/
def lastTermIdx : List Char → Option Nat
  | [] => none
  | c :: rest =>
    match lastTermIdx rest with
    | some j => some (j + 1)
    | none => if isLineTerm c then some 0 else none

/-- `/^[^0-9+\-*\/=()^√π∑∫αβγδεθλμρσφχψωΔ∇∂xyzabcXYZABC≤≥≠≈±×÷°]*$/gm`
(line 81).  The negated class also matches line terminators, so a single
greedy match can blank a run of consecutive prose lines; `$` backtracks to
the last line terminator inside the consumed run. -/
def blankProseAux : Nat → Bool → List Char → List Char
  | 0, _, s => s
  | _ + 1, _, [] => []
  | fuel + 1, false, c :: rest => c :: blankProseAux fuel (isLineTerm c) rest
  | fuel + 1, true, c :: rest =>
    let run := (c :: rest).takeWhile (fun x => !allowChar x)
    if run.length = rest.length + 1 then []
    else
      match lastTermIdx run with
      | none => c :: blankProseAux fuel (isLineTerm c) rest
      | some 0 => c :: blankProseAux fuel true rest
      | some (j + 1) => blankProseAux fuel (isLineTerm (run.getD j ' ')) ((c :: rest).drop (j + 1))

def blankProseLines (s : List Char) : List Char :=
  blankProseAux (s.length + 1) true s

/-- Case-insensitive substring containment (no boundaries), as used by the
keyword test inside `[^)]*(?:note|...)[^)]*` of line 83. -/
def ciContainsSub (pat : List Char) : List Char → Bool
  | [] => pat.isEmpty
  | c :: rest => (ciStarts pat (c :: rest)).isSome || ciContainsSub pat rest

/-- The keyword alternation of line 83 (its capitalised variants are
absorbed by the `i` flag). -/
def asideKeywords : List (List Char) :=
  (["note", "explanation", "comment", "description"]).map String.data

/-- `/\([^)]*(?:note|...)[^)]*\)/gi` (line 83). -/
def matchParenAside (s : List Char) : Option (Nat × List Char × Unit) :=
  match s with
  | c :: rest =>
    if c = '(' then
      let inner := rest.takeWhile (fun x => x != ')')
      if (rest.drop inner.length).isEmpty then none
      else if asideKeywords.any (fun kw => ciContainsSub kw inner) then
        some (1 + inner.length + 1, [], ())
      else none
    else none
  | [] => none

def stripParenAsides (s : List Char) : List Char :=
  scanSt (fun _ => matchParenAside) updUnit (s.length + 1) () s

/-- The qualifier list of lines 85 and 138. -/
def qualifierWords : List (List Char) :=
  (["Total", "Per", "Each", "Initial", "Final", "Net", "Average", "Sum",
    "Difference"]).map String.data

/-- The alternation-with-continuation of
`/\b(Total|Per|...)\s+[a-zA-Z]+\b/gi` (lines 85, 138). -/
def tryQualAlts : List (List Char) → List Char → Option Nat
  | [], _ => none
  | alt :: more, s =>
    match ciStarts alt s with
    | some r1 =>
      let w := r1.takeWhile isJsSpace
      if w.isEmpty then tryQualAlts more s else
      let r2 := r1.drop w.length
      let letters := r2.takeWhile isAsciiAlpha
      if letters.isEmpty then tryQualAlts more s else
      match r2.drop letters.length with
      | [] => some (alt.length + w.length + letters.length)
      | c :: _ =>
        if isWordChar c then tryQualAlts more s
        else some (alt.length + w.length + letters.length)
    | none => tryQualAlts more s

def matchQualNoun (prevW : Bool) (s : List Char) : Option (Nat × List Char × Bool) :=
  if prevW then none else
  match tryQualAlts qualifierWords s with
  | some k => some (k, [], true)
  | none => none

def stripQualNouns (s : List Char) : List Char :=
  scanSt matchQualNoun updWord (s.length + 1) false s

/-- The `(?=\s*$)` lookahead of line 87 with a multiline `$`: only
whitespace up to the next line terminator (or the end). -/
def lookWsEol : List Char → Bool
  | [] => true
  | c :: rest =>
    if isLineTerm c then true
    else if isJsSpace c then lookWsEol rest
    else false

/-- `/[;:](?=\s*$)/gm` (line 87). -/
def matchTrailPunct (s : List Char) : Option (Nat × List Char × Unit) :=
  match s with
  | c :: rest =>
    if c = ';' || c = ':' then
      if lookWsEol rest then some (1, [], ()) else none
    else none
  | [] => none

def stripTrailingPunct (s : List Char) : List Char :=
  scanSt (fun _ => matchTrailPunct) updUnit (s.length + 1) () s

def isBulletChar (c : Char) : Bool := c = '•' || c = '*' || c = '-'

/-- `/^\s*[•*\-]\s+/gm` (line 89). -/
def matchLeadBullet (atLS : Bool) (s : List Char) : Option (Nat × List Char × Bool) :=
  if atLS then
    let w1 := s.takeWhile isJsSpace
    match s.drop w1.length with
    | c :: r2 =>
      if isBulletChar c then
        let w2 := r2.takeWhile isJsSpace
        if w2.isEmpty then none
        else some (w1.length + 1 + w2.length, [], isLineTerm (w2.getLastD ' '))
      else none
    | [] => none
  else none

def stripLeadingBullets (s : List Char) : List Char :=
  scanSt matchLeadBullet updLineStart (s.length + 1) true s

/-- `/\s*[•*\-]\s*$/gm` (line 90): the trailing `\s*` backtracks to the
last position where the multiline `$` holds. -/
def matchTrailBullet (s : List Char) : Option (Nat × List Char × Unit) :=
  let w1 := s.takeWhile isJsSpace
  match s.drop w1.length with
  | c :: r2 =>
    if isBulletChar c then
      let w2 := r2.takeWhile isJsSpace
      if (r2.drop w2.length).isEmpty then some (w1.length + 1 + w2.length, [], ())
      else
        match lastTermIdx w2 with
        | some j => some (w1.length + 1 + j, [], ())
        | none => none
    else none
  | [] => none

def stripTrailingBullets (s : List Char) : List Char :=
  scanSt (fun _ => matchTrailBullet) updUnit (s.length + 1) () s

/-- Replace each maximal run of characters satisfying `p` by one space. -/
def collapseRuns (p : Char → Bool) : Bool → List Char → List Char
  | _, [] => []
  | prevIn, c :: rest =>
    if p c then
      if prevIn then collapseRuns p true rest
      else ' ' :: collapseRuns p true rest
    else c :: collapseRuns p false rest

/-- `/[^\S\r\n]+/g → " "` (line 91). -/
def normalizeWhitespace (s : List Char) : List Char :=
  collapseRuns isHorizWs false s

/-- Lines 64-91: the chained `.replace` passes, innermost first. -/
def stageA (s : List Char) : List Char :=
  normalizeWhitespace
    (stripTrailingBullets
      (stripLeadingBullets
        (stripTrailingPunct
          (stripQualNouns
            (stripParenAsides
              (blankProseLines
                (stripDiscoursePhrases
                  (stripDiscourseWords
                    (stripStepLabels
                      (stripStepNumbers
                        (stripHashComments
                          (stripBlockComments
                            (stripLineComments
                              (stripFracBlocks
                                (stripTextBlocks
                                  (stripDollars
                                    (stripLatexBrackets s)))))))))))))))))

/-! ### Stage B: line splitting and filtering (server.js lines 93-132) -/

/-- `split(/\r?\n/)` (line 100). -/
def splitLines : List Char → List (List Char)
  | [] => [[]]
  | c :: rest =>
    if c = '\r' then
      match rest with
      | c2 :: rest2 =>
        if c2 = '\n' then [] :: splitLines rest2
        else
          match splitLines (c2 :: rest2) with
          | l :: ls => (c :: l) :: ls
          | [] => [[c]]
      | [] => [['\r']]
    else if c = '\n' then [] :: splitLines rest
    else
      match splitLines rest with
      | l :: ls => (c :: l) :: ls
      | [] => [[c]]

/-- `String.prototype.trim` (line 102). -/
def trimWs (s : List Char) : List Char :=
  ((s.dropWhile isJsSpace).reverse.dropWhile isJsSpace).reverse

/-- Number of maximal whitespace runs in the list. -/
def wsRunsAux : Bool → List Char → Nat
  | _, [] => 0
  | inWs, c :: rest =>
    if isJsSpace c then (if inWs then 0 else 1) + wsRunsAux true rest
    else wsRunsAux false rest

/-- `line.split(/\s+/).length` (line 108): one more than the number of
separator matches; the empty string splits to `[""]`. -/
def textWordsCount (l : List Char) : Nat :=
  if l.isEmpty then 1 else wsRunsAux false l + 1

/-- The word list of line 113. -/
def descriptiveWords : List (List Char) :=
  (["Total", "Each", "Per", "Apply", "Calculate", "Step", "The", "This",
    "That", "We", "You", "I", "can", "have", "is", "are", "was",
    "were"]).map String.data

/-- `.test` of a boundary-delimited word alternation without the sticky
state (fresh literal regexes, lines 113-129). -/
def hasWordAlt (alts : List (List Char)) : Bool → List Char → Bool
  | _, [] => false
  | prevW, c :: rest =>
    (!prevW && (tryAlts alts (c :: rest)).isSome) || hasWordAlt alts (isWordChar c) rest

/-- `/^(True|False)$/i` (line 117). -/
def isTrueFalseLine (l : List Char) : Bool :=
  (match ciStarts "True".data l with
   | some [] => true
   | _ => false) ||
  (match ciStarts "False".data l with
   | some [] => true
   | _ => false)

/-- `/^[A-E]$/i` (line 119). -/
def isChoiceLetter (l : List Char) : Bool :=
  match l with
  | [c] => 'A' ≤ jsCanon c && jsCanon c ≤ 'E'
  | _ => false

/-- `equipmentPattern` (line 94), in source order. -/
def equipmentAlts : List (List Char) :=
  (["spectrophotometer", "calorimeter", "oscilloscope", "voltmeter",
    "ammeter", "multimeter", "thermometer", "barometer", "manometer",
    "burette", "pipette", "beaker", "flask", "test tube", "microscope",
    "telescope", "laser", "prism", "lens", "mirror", "resistor",
    "capacitor", "inductor", "transformer", "generator", "motor",
    "sensor", "detector", "analyzer", "chromatograph",
    "mass spectrometer", "NMR", "IR", "UV", "X-ray",
    "electron microscope"]).map String.data

def lhopital : List Char := ['L', apos, 'H', 'ô', 'p', 'i', 't', 'a', 'l']

/-- `methodPattern` (line 97), in source order. -/
def methodAlts : List (List Char) :=
  (["integration", "differentiation", "derivative", "integral",
    "substitution", "quadratic formula", "Pythagorean theorem", "Newton",
    "conservation", "momentum", "energy", "force", "acceleration",
    "velocity", "displacement", "kinematics", "dynamics",
    "thermodynamics", "electrostatics", "magnetism", "optics", "quantum",
    "relativity", "stoichiometry", "equilibrium", "reaction", "oxidation",
    "reduction", "acid", "base", "pH", "molarity", "molar mass",
    "Avogadro", "ideal gas", "Boyle", "Charles", "Gay-Lussac", "Ohm",
    "Kirchhoff", "Faraday", "Maxwell", "Einstein", "Schrödinger",
    "Heisenberg", "Bohr", "Planck", "de Broglie", "Fourier", "Laplace",
    "Taylor", "Maclaurin"]).map String.data ++
  [lhopital] ++
  (["chain rule", "product rule", "quotient rule", "integration by parts",
    "partial fractions", "trigonometric substitution",
    "u-substitution"]).map String.data

/-- Search for the leftmost alternation match from a given absolute
position; returns the index just after the match. -/
def searchAltsFrom (alts : List (List Char)) : Bool → List Char → Nat → Option Nat
  | _, [], _ => none
  | prevW, c :: rest, pos =>
    if !prevW then
      match tryAlts alts (c :: rest) with
      | some k => some (pos + k)
      | none => searchAltsFrom alts (isWordChar c) rest (pos + 1)
    else searchAltsFrom alts (isWordChar c) rest (pos + 1)

/-- `RegExp.prototype.test` of a `/g` regex: matching starts at
`lastIndex`, which is advanced past the match on success and reset to `0`
on failure or when it exceeds the input length. -/
def rxTestG (alts : List (List Char)) (lastIndex : Nat) (l : List Char) : Bool × Nat :=
  if l.length < lastIndex then (false, 0)
  else
    let pre := l.take lastIndex
    let prevW := match pre.getLast? with
      | some c => isWordChar c
      | none => false
    match searchAltsFrom alts prevW (l.drop lastIndex) lastIndex with
    | some e => (true, e)
    | none => (false, 0)

/-- One candidate position of the formula pattern of line 129. -/
def formulaAt (s : List Char) : Bool :=
  match s with
  | c :: rest =>
    varStartCharCi c &&
      (match rest.dropWhile isJsSpace with
       | r :: r2 =>
         relChar r &&
           (match r2.dropWhile isJsSpace with
            | d :: _ => rhsCharCi d
            | [] => false)
       | [] => false)
  | [] => false

/-- `.test` of `/[a-zA-Zαβ...]\s*[=<>≤≥≠≈]\s*[a-zA-Z0-9αβ...+\-*\/()^√π∑∫²³]/i`
(line 129). -/
def hasFormula : List Char → Bool
  | [] => false
  | c :: rest => formulaAt (c :: rest) || hasFormula rest

/-- The filter callback of lines 103-131.  The pair of `Nat`s carries the
`lastIndex` state of the two hoisted `/g` regexes `equipmentPattern` and
`methodPattern`; every other regex is a fresh literal. -/
def keepLineCore (line : List Char) (st : Nat × Nat) : Bool × (Nat × Nat) :=
  if line.isEmpty then (false, st) else
  let mathSymbols := line.countP allowChar
  let textWords := textWordsCount line
  if mathSymbols * 2 < textWords ∧ mathSymbols < 3 then (false, st) else
  if hasWordAlt descriptiveWords false line && !(line.any mathSymCharCi) then (false, st) else
  if isTrueFalseLine line then (true, st) else
  if isChoiceLetter line then (true, st) else
  if line.any mathSymCharCi then (true, st) else
  if line.any extraAllowChar then (true, st) else
  let e := rxTestG equipmentAlts st.1 line
  if e.1 && line.any arithChar then (true, (e.2, st.2)) else
  let m := rxTestG methodAlts st.2 line
  if m.1 && line.any arithChar then (true, (e.2, m.2)) else
  if hasFormula line then (true, (e.2, m.2)) else
  (false, (e.2, m.2))

/-- `lines.map(trim).filter(cb)` threading the shared regex state from
line to line in evaluation order. -/
def filterMapSt : Nat × Nat → List (List Char) → List (List Char)
  | _, [] => []
  | st, l :: ls =>
    let r := keepLineCore l st
    if r.1 then l :: filterMapSt r.2 ls else filterMapSt r.2 ls

/-! ### Stage C: per-line variable normalisation (server.js lines 135-164) -/

/-- `/\b([a-zA-Z])\s+(\d+)\b/g → $1$2` (line 141). -/
def matchLetterDigit (prevW : Bool) (s : List Char) : Option (Nat × List Char × Bool) :=
  if prevW then none else
  match s with
  | c :: rest =>
    if isAsciiAlpha c then
      let w := rest.takeWhile isJsSpace
      if w.isEmpty then none else
      let r2 := rest.drop w.length
      let d := r2.takeWhile isAsciiDigit
      if d.isEmpty then none else
      match r2.drop d.length with
      | a :: _ => if isWordChar a then none else some (1 + w.length + d.length, c :: d, true)
      | [] => some (1 + w.length + d.length, c :: d, true)
    else none
  | [] => none

/-- The subscript-word list of line 144. -/
def subscriptWords : List (List Char) :=
  (["initial", "final", "total", "net", "max", "min", "avg", "average",
    "sum", "diff", "delta", "change", "i", "f"]).map String.data

/-- `/\b([a-zA-Z])\s+(initial|final|...)\b/gi → $1$2` (line 144); the
capture keeps the input's own spelling. -/
def matchLetterSub (prevW : Bool) (s : List Char) : Option (Nat × List Char × Bool) :=
  if prevW then none else
  match s with
  | c :: rest =>
    if isAsciiAlpha c then
      let w := rest.takeWhile isJsSpace
      if w.isEmpty then none else
      let r2 := rest.drop w.length
      match tryAlts subscriptWords r2 with
      | some k => some (1 + w.length + k, c :: r2.take k, true)
      | none => none
    else none
  | [] => none

/-- `/([αβγδεθλμρσφχψωΔ∇∂])\s+(\d+)/g → $1$2` (line 147): case-sensitive
and without `\b`. -/
def matchGreekDigit (s : List Char) : Option (Nat × List Char × Unit) :=
  match s with
  | c :: rest =>
    if inClass greekChars c then
      let w := rest.takeWhile isJsSpace
      if w.isEmpty then none else
      let r2 := rest.drop w.length
      let d := r2.takeWhile isAsciiDigit
      if d.isEmpty then none else some (1 + w.length + d.length, c :: d, ())
    else none
  | [] => none

/-- The shorter subscript-word list of line 150. -/
def greekSubWords : List (List Char) :=
  (["initial", "final", "total", "net", "max", "min", "avg", "i",
    "f"]).map String.data

/-- `/([αβγδεθλμρσφχψωΔ∇∂])\s+(initial|...)\b/gi → $1$2` (line 150). -/
def matchGreekSub (s : List Char) : Option (Nat × List Char × Unit) :=
  match s with
  | c :: rest =>
    if inClass greekChars c || inClass greekCiExtra c then
      let w := rest.takeWhile isJsSpace
      if w.isEmpty then none else
      let r2 := rest.drop w.length
      match tryAlts greekSubWords r2 with
      | some k => some (1 + w.length + k, c :: r2.take k, ())
      | none => none
    else none
  | [] => none

/-- `/\b([A-Za-z])\s+([a-z]+)\b(?=\s*[=+\-*\/()]|$)/g → $1$2` (line 153):
case-sensitive, `$` without the `m` flag (absolute end of the line). -/
def matchLetterWord (prevW : Bool) (s : List Char) : Option (Nat × List Char × Bool) :=
  if prevW then none else
  match s with
  | c :: rest =>
    if isAsciiAlpha c then
      let w := rest.takeWhile isJsSpace
      if w.isEmpty then none else
      let r2 := rest.drop w.length
      let letters := r2.takeWhile isAsciiLower
      if letters.isEmpty then none else
      let after := r2.drop letters.length
      let bOk := match after with
        | [] => true
        | a :: _ => !isWordChar a
      let look := (match after.dropWhile isJsSpace with
        | o :: _ => inClass "=+-*/()" o
        | [] => false) || after.isEmpty
      if bOk && look then some (1 + w.length + letters.length, c :: letters, true)
      else none
    else none
  | [] => none

/-- `/\s*[;,]\s*$/g` (line 156), `$` without `m`. -/
def matchTrailComma (s : List Char) : Option (Nat × List Char × Unit) :=
  let w1 := s.takeWhile isJsSpace
  match s.drop w1.length with
  | c :: r2 =>
    if c = ';' || c = ',' then
      let w2 := r2.takeWhile isJsSpace
      if (r2.drop w2.length).isEmpty then some (w1.length + 1 + w2.length, [], ())
      else none
    else none
  | [] => none

def isQuoteChar (c : Char) : Bool := c = apos || c = '"'

/-- `/^['"]+|['"]+$/g` (line 157). -/
def stripQuotes (s : List Char) : List Char :=
  ((s.dropWhile isQuoteChar).reverse.dropWhile isQuoteChar).reverse

def spaceTab (c : Char) : Bool := c = ' ' || c = '\t'

def joinLetterDigit (s : List Char) : List Char :=
  scanSt matchLetterDigit updWord (s.length + 1) false s

def joinLetterSub (s : List Char) : List Char :=
  scanSt matchLetterSub updWord (s.length + 1) false s

def joinGreekDigit (s : List Char) : List Char :=
  scanSt (fun _ => matchGreekDigit) updUnit (s.length + 1) () s

def joinGreekSub (s : List Char) : List Char :=
  scanSt (fun _ => matchGreekSub) updUnit (s.length + 1) () s

def joinLetterWord (s : List Char) : List Char :=
  scanSt matchLetterWord updWord (s.length + 1) false s

def stripTrailCommas (s : List Char) : List Char :=
  scanSt (fun _ => matchTrailComma) updUnit (s.length + 1) () s

/-- `/[`~]/g → ""` (line 158). -/
def stripTicks (s : List Char) : List Char :=
  s.filter (fun c => !(c = backtick || c = '~'))

/-- `/[ \t]+/g → " "` (line 161). -/
def squeezeSpaces (s : List Char) : List Char :=
  collapseRuns spaceTab false s

/-- `normalizeVariables` (lines 135-164) on one line, innermost pass
first. -/
def normalizeVariables (line : List Char) : List Char :=
  trimWs
    (squeezeSpaces
      (stripTicks
        (stripQuotes
          (stripTrailCommas
            (joinLetterWord
              (joinGreekSub
                (joinGreekDigit
                  (joinLetterSub
                    (joinLetterDigit
                      (stripQualNouns line))))))))))

/-- `join("\n")` (line 169). -/
def joinNL : List (List Char) → List Char
  | [] => []
  | [l] => l
  | l :: ls => l ++ '\n' :: joinNL ls

/-- `sanitizeOutput` (lines 60-171). -/
def sanitizeOutput (raw : String) : String :=
  if raw = "" then "" else
  let cleaned := stageA raw.data
  let lines := (splitLines cleaned).map trimWs
  let filtered := filterMapSt (0, 0) lines
  String.mk (trimWs (joinNL (filtered.map normalizeVariables)))

/-- The keep decision of the filter callback run from the reset regex
state, as a pure per-line predicate. -/
def keepLine (l : List Char) : Bool := (keepLineCore l (0, 0)).1

/-- The head of the list canonicalises to an ASCII letter (true of every
alternation literal in the source's word lists). -/
def headCanonAlpha : List Char → Bool
  | [] => false
  | a :: _ => isAsciiAlpha (jsCanon a)

/-! ### Helper lemmas -/

theorem inClass_eq_mem (cls : String) (c : Char) : inClass cls c = decide (c ∈ cls.data) := by
  simp [inClass, List.contains, List.elem_eq_mem]

theorem arithChar_imp_mathCi {c : Char} (h : arithChar c = true) : mathSymCharCi c = true := by
  simp only [arithChar, Bool.or_eq_true] at h
  rcases h with h | h
  · simp [mathSymCharCi, mathSymChar, h]
  · have hlist : ("+-*/=()".data) = ['+', '-', '*', '/', '=', '(', ')'] := rfl
    rw [inClass_eq_mem] at h
    simp only [hlist, decide_eq_true_eq, List.mem_cons, List.not_mem_nil, or_false] at h
    rcases h with rfl | rfl | rfl | rfl | rfl | rfl | rfl <;> decide

theorem any_arith_false {l : List Char} (h : l.any mathSymCharCi = false) :
    l.any arithChar = false := by
  rw [Bool.eq_false_iff] at h ⊢
  intro hc
  apply h
  rw [List.any_eq_true] at hc ⊢
  obtain ⟨c, hmem, harith⟩ := hc
  exact ⟨c, hmem, arithChar_imp_mathCi harith⟩

theorem keepLineCore_fst (l : List Char) (st : Nat × Nat) :
    (keepLineCore l st).1 = keepLine l := by
  unfold keepLine keepLineCore
  cases h1 : l.isEmpty
  case true => simp only [h1, if_true]
  case false =>
  simp only [h1, Bool.false_eq_true, if_false]
  by_cases h2 : l.countP allowChar * 2 < textWordsCount l ∧ l.countP allowChar < 3
  case pos => simp only [if_pos h2]
  case neg =>
  simp only [if_neg h2]
  cases h3 : (hasWordAlt descriptiveWords false l && !l.any mathSymCharCi)
  case true => simp only [h3, if_true]
  case false =>
  simp only [h3, Bool.false_eq_true, if_false]
  cases h4 : isTrueFalseLine l
  case true => simp only [h4, if_true]
  case false =>
  simp only [h4, Bool.false_eq_true, if_false]
  cases h5 : isChoiceLetter l
  case true => simp only [h5, if_true]
  case false =>
  simp only [h5, Bool.false_eq_true, if_false]
  cases h6 : l.any mathSymCharCi
  case true => simp only [h6, if_true]
  case false =>
  simp only [h6, Bool.false_eq_true, if_false]
  cases h7 : l.any extraAllowChar
  case true => simp only [h7, if_true]
  case false =>
  simp only [h7, Bool.false_eq_true, if_false]
  have harith : l.any arithChar = false := any_arith_false h6
  simp only [harith, Bool.and_false, Bool.false_eq_true, if_false]
  cases hf : hasFormula l
  case true => simp only [hf, if_true]
  case false => simp only [hf, Bool.false_eq_true, if_false]

theorem filterMapSt_eq (st : Nat × Nat) (ls : List (List Char)) :
    filterMapSt st ls = ls.filter keepLine := by
  induction ls generalizing st with
  | nil => rfl
  | cons l ls ih =>
    simp only [filterMapSt, List.filter_cons, keepLineCore_fst]
    cases hk : keepLine l
    · simp only [Bool.false_eq_true, if_false, ih]
    · simp only [if_true, ih]

theorem mem_of_mem_takeWhile {p : Char → Bool} {l : List Char} {a : Char}
    (h : a ∈ l.takeWhile p) : a ∈ l :=
  ((List.takeWhile_prefix p).sublist).subset h

theorem mem_of_mem_dropWhile {p : Char → Bool} {l : List Char} {a : Char}
    (h : a ∈ l.dropWhile p) : a ∈ l :=
  ((List.dropWhile_suffix p).sublist).subset h

theorem mem_of_mem_take {l : List Char} {n : Nat} {a : Char}
    (h : a ∈ l.take n) : a ∈ l :=
  ((List.take_sublist n l)).subset h

theorem scanSt_not_mem {σ : Type} (m : σ → List Char → Option (Nat × List Char × σ))
    (upd : Char → σ) (x : Char)
    (hm : ∀ st s k rep st', m st s = some (k, rep, st') → x ∉ s → x ∉ rep) :
    ∀ fuel st s, x ∉ s → x ∉ scanSt m upd fuel st s := by
  intro fuel
  induction fuel with
  | zero => intro st s h; simpa [scanSt] using h
  | succ n ih =>
    intro st s h
    cases s with
    | nil => simp [scanSt]
    | cons c rest =>
      simp only [scanSt]
      cases hms : m st (c :: rest) with
      | none =>
        simp only []
        intro hmem
        rcases List.mem_cons.mp hmem with rfl | hmem2
        · exact h (List.mem_cons_self _ _)
        · exact ih (upd c) rest (fun hr => h (List.mem_cons_of_mem _ hr)) hmem2
      | some t =>
        obtain ⟨k, rep, st'⟩ := t
        simp only []
        intro hmem
        rcases List.mem_append.mp hmem with hrep | hsc
        · exact hm st (c :: rest) k rep st' hms h hrep
        · exact ih st' (rest.drop (k - 1))
            (fun hd => h (List.mem_cons_of_mem _ (List.mem_of_mem_drop hd))) hsc

theorem scanSt_not_mem_empty {σ : Type} (m : σ → List Char → Option (Nat × List Char × σ))
    (upd : Char → σ) (x : Char)
    (hrep : ∀ st s k rep st', m st s = some (k, rep, st') → rep = []) :
    ∀ fuel st s, x ∉ s → x ∉ scanSt m upd fuel st s :=
  scanSt_not_mem m upd x
    (fun st s k rep st' hsome _ => by rw [hrep st s k rep st' hsome]; simp)

theorem scanSt_not_mem_sub {σ : Type} (m : σ → List Char → Option (Nat × List Char × σ))
    (upd : Char → σ) (x : Char)
    (hrep : ∀ st s k rep st', m st s = some (k, rep, st') → ∀ a ∈ rep, a ∈ s) :
    ∀ fuel st s, x ∉ s → x ∉ scanSt m upd fuel st s :=
  scanSt_not_mem m upd x
    (fun st s k rep st' hsome hns hmem => hns (hrep st s k rep st' hsome x hmem))

theorem matchBracketPair_rep (s : List Char) (k : Nat) (rep : List Char) (u : Unit)
    (h : matchBracketPair s = some (k, rep, u)) : rep = [] := by
  unfold matchBracketPair at h
  repeat' split at h
  all_goals cases h <;> rfl

theorem matchDollar_rep (s : List Char) (k : Nat) (rep : List Char) (u : Unit)
    (h : matchDollar s = some (k, rep, u)) : rep = [] := by
  unfold matchDollar at h
  repeat' split at h
  all_goals cases h <;> rfl

theorem matchTextBlock_rep (s : List Char) (k : Nat) (rep : List Char) (u : Unit)
    (h : matchTextBlock s = some (k, rep, u)) : rep = [] := by
  simp only [matchTextBlock] at h
  repeat' split at h
  all_goals cases h <;> rfl

theorem matchFracBlock_rep (s : List Char) (k : Nat) (rep : List Char) (u : Unit)
    (h : matchFracBlock s = some (k, rep, u)) : rep = [] := by
  simp only [matchFracBlock] at h
  repeat' split at h
  all_goals cases h <;> rfl

theorem matchLineComment_rep (s : List Char) (k : Nat) (rep : List Char) (u : Unit)
    (h : matchLineComment s = some (k, rep, u)) : rep = [] := by
  simp only [matchLineComment] at h
  repeat' split at h
  all_goals cases h <;> rfl

theorem matchBlockComment_rep (s : List Char) (k : Nat) (rep : List Char) (u : Unit)
    (h : matchBlockComment s = some (k, rep, u)) : rep = [] := by
  simp only [matchBlockComment] at h
  repeat' split at h
  all_goals cases h <;> rfl

theorem matchHashComment_rep (s : List Char) (k : Nat) (rep : List Char) (u : Unit)
    (h : matchHashComment s = some (k, rep, u)) : rep = [] := by
  simp only [matchHashComment] at h
  repeat' split at h
  all_goals cases h <;> rfl

theorem matchStepNumber_rep (st : Bool) (s : List Char) (k : Nat) (rep : List Char) (st' : Bool)
    (h : matchStepNumber st s = some (k, rep, st')) : rep = [] := by
  simp only [matchStepNumber] at h
  repeat' split at h
  all_goals cases h <;> rfl

theorem matchStepLabel_rep (st : Bool) (s : List Char) (k : Nat) (rep : List Char) (st' : Bool)
    (h : matchStepLabel st s = some (k, rep, st')) : rep = [] := by
  simp only [matchStepLabel] at h
  repeat' split at h
  all_goals cases h <;> rfl

theorem matchWordAlts_rep (alts : List (List Char)) (st : Bool) (s : List Char)
    (k : Nat) (rep : List Char) (st' : Bool)
    (h : matchWordAlts alts st s = some (k, rep, st')) : rep = [] := by
  simp only [matchWordAlts] at h
  repeat' split at h
  all_goals cases h <;> rfl

theorem matchQualNoun_rep (st : Bool) (s : List Char) (k : Nat) (rep : List Char) (st' : Bool)
    (h : matchQualNoun st s = some (k, rep, st')) : rep = [] := by
  simp only [matchQualNoun] at h
  repeat' split at h
  all_goals cases h <;> rfl

theorem matchParenAside_rep (s : List Char) (k : Nat) (rep : List Char) (u : Unit)
    (h : matchParenAside s = some (k, rep, u)) : rep = [] := by
  simp only [matchParenAside] at h
  repeat' split at h
  all_goals cases h <;> rfl

theorem matchTrailPunct_rep (s : List Char) (k : Nat) (rep : List Char) (u : Unit)
    (h : matchTrailPunct s = some (k, rep, u)) : rep = [] := by
  simp only [matchTrailPunct] at h
  repeat' split at h
  all_goals cases h <;> rfl

theorem matchLeadBullet_rep (st : Bool) (s : List Char) (k : Nat) (rep : List Char) (st' : Bool)
    (h : matchLeadBullet st s = some (k, rep, st')) : rep = [] := by
  simp only [matchLeadBullet] at h
  repeat' split at h
  all_goals cases h <;> rfl

theorem matchTrailBullet_rep (s : List Char) (k : Nat) (rep : List Char) (u : Unit)
    (h : matchTrailBullet s = some (k, rep, u)) : rep = [] := by
  simp only [matchTrailBullet] at h
  repeat' split at h
  all_goals cases h <;> rfl

theorem matchTrailComma_rep (s : List Char) (k : Nat) (rep : List Char) (u : Unit)
    (h : matchTrailComma s = some (k, rep, u)) : rep = [] := by
  simp only [matchTrailComma] at h
  repeat' split at h
  all_goals cases h <;> rfl

theorem matchLetterDigit_sub (st : Bool) (s : List Char) (k : Nat) (rep : List Char) (st' : Bool)
    (h : matchLetterDigit st s = some (k, rep, st')) : ∀ a ∈ rep, a ∈ s := by
  simp only [matchLetterDigit] at h
  repeat' split at h
  all_goals cases h
  all_goals
    intro a ha
    rcases List.mem_cons.mp ha with rfl | ha2
    · exact List.mem_cons_self _ _
    · exact List.mem_cons_of_mem _ (List.mem_of_mem_drop (mem_of_mem_takeWhile ha2))

theorem matchLetterSub_sub (st : Bool) (s : List Char) (k : Nat) (rep : List Char) (st' : Bool)
    (h : matchLetterSub st s = some (k, rep, st')) : ∀ a ∈ rep, a ∈ s := by
  simp only [matchLetterSub] at h
  repeat' split at h
  all_goals cases h
  all_goals
    intro a ha
    rcases List.mem_cons.mp ha with rfl | ha2
    · exact List.mem_cons_self _ _
    · exact List.mem_cons_of_mem _ (List.mem_of_mem_drop (mem_of_mem_take ha2))

theorem matchGreekDigit_sub (s : List Char) (k : Nat) (rep : List Char) (u : Unit)
    (h : matchGreekDigit s = some (k, rep, u)) : ∀ a ∈ rep, a ∈ s := by
  simp only [matchGreekDigit] at h
  repeat' split at h
  all_goals cases h
  all_goals
    intro a ha
    rcases List.mem_cons.mp ha with rfl | ha2
    · exact List.mem_cons_self _ _
    · exact List.mem_cons_of_mem _ (List.mem_of_mem_drop (mem_of_mem_takeWhile ha2))

theorem matchGreekSub_sub (s : List Char) (k : Nat) (rep : List Char) (u : Unit)
    (h : matchGreekSub s = some (k, rep, u)) : ∀ a ∈ rep, a ∈ s := by
  simp only [matchGreekSub] at h
  repeat' split at h
  all_goals cases h
  all_goals
    intro a ha
    rcases List.mem_cons.mp ha with rfl | ha2
    · exact List.mem_cons_self _ _
    · exact List.mem_cons_of_mem _ (List.mem_of_mem_drop (mem_of_mem_take ha2))

theorem matchLetterWord_sub (st : Bool) (s : List Char) (k : Nat) (rep : List Char) (st' : Bool)
    (h : matchLetterWord st s = some (k, rep, st')) : ∀ a ∈ rep, a ∈ s := by
  simp only [matchLetterWord] at h
  repeat' split at h
  all_goals cases h
  all_goals
    intro a ha
    rcases List.mem_cons.mp ha with rfl | ha2
    · exact List.mem_cons_self _ _
    · exact List.mem_cons_of_mem _ (List.mem_of_mem_drop (mem_of_mem_takeWhile ha2))

theorem matchDollar_none_head (c : Char) (rest : List Char)
    (h : matchDollar (c :: rest) = none) : c ≠ '$' := by
  rintro rfl
  cases rest with
  | nil => simp [matchDollar] at h
  | cons c2 r2 =>
    by_cases h2 : c2 = '$' <;> simp [matchDollar, h2] at h

theorem stripDollars_aux_no_dollar :
    ∀ fuel (st : Unit) (s : List Char), s.length < fuel →
      '$' ∉ scanSt (fun _ => matchDollar) updUnit fuel st s := by
  intro fuel
  induction fuel with
  | zero => intro st s h; omega
  | succ n ih =>
    intro st s hlen
    cases s with
    | nil => simp [scanSt]
    | cons c rest =>
      simp only [scanSt]
      cases hms : matchDollar (c :: rest) with
      | none =>
        simp only []
        intro hmem
        rcases List.mem_cons.mp hmem with rfl | h2
        · exact matchDollar_none_head _ _ hms rfl
        · exact ih () rest (by simp at hlen; omega) h2
      | some t =>
        obtain ⟨k, rep, u⟩ := t
        simp only []
        intro hmem
        rcases List.mem_append.mp hmem with h1 | h2
        · rw [matchDollar_rep _ _ _ _ hms] at h1
          simp at h1
        · refine absurd h2 (ih () (rest.drop (k - 1)) ?_)
          rw [List.length_drop]
          simp at hlen
          omega

theorem stripDollars_no_dollar (s : List Char) : '$' ∉ stripDollars s := by
  unfold stripDollars
  exact stripDollars_aux_no_dollar (s.length + 1) () s (by omega)

theorem blankProseAux_not_mem (x : Char) :
    ∀ fuel b s, x ∉ s → x ∉ blankProseAux fuel b s := by
  intro fuel
  induction fuel with
  | zero => intro b s h; simpa [blankProseAux] using h
  | succ n ih =>
    intro b s h
    cases s with
    | nil => simp [blankProseAux]
    | cons c rest =>
      cases b with
      | false =>
        simp only [blankProseAux]
        intro hmem
        rcases List.mem_cons.mp hmem with rfl | h2
        · exact h (List.mem_cons_self _ _)
        · exact ih _ rest (fun hr => h (List.mem_cons_of_mem _ hr)) h2
      | true =>
        simp only [blankProseAux]
        split
        · simp
        · split
          · intro hmem
            rcases List.mem_cons.mp hmem with rfl | h2
            · exact h (List.mem_cons_self _ _)
            · exact ih _ rest (fun hr => h (List.mem_cons_of_mem _ hr)) h2
          · intro hmem
            rcases List.mem_cons.mp hmem with rfl | h2
            · exact h (List.mem_cons_self _ _)
            · exact ih _ rest (fun hr => h (List.mem_cons_of_mem _ hr)) h2
          · intro hmem
            exact ih _ _ (fun hd => h (List.mem_of_mem_drop hd)) hmem

theorem collapseRuns_not_mem (p : Char → Bool) (x : Char) (hx : x ≠ ' ') :
    ∀ b s, x ∉ s → x ∉ collapseRuns p b s := by
  intro b s
  induction s generalizing b with
  | nil => intro _; simp [collapseRuns]
  | cons c rest ih =>
    intro h
    simp only [collapseRuns]
    split
    · split
      · exact ih true (fun hr => h (List.mem_cons_of_mem _ hr))
      · intro hmem
        rcases List.mem_cons.mp hmem with rfl | h2
        · exact hx rfl
        · exact ih true (fun hr => h (List.mem_cons_of_mem _ hr)) h2
    · intro hmem
      rcases List.mem_cons.mp hmem with rfl | h2
      · exact h (List.mem_cons_self _ _)
      · exact ih false (fun hr => h (List.mem_cons_of_mem _ hr)) h2

theorem splitLines_mem : ∀ (s : List Char), ∀ l ∈ splitLines s, ∀ a ∈ l, a ∈ s := by
  intro s
  induction s using splitLines.induct with
  | case1 =>
    intro l hl a ha
    simp only [splitLines, List.mem_singleton] at hl
    subst hl
    simp at ha
  | case2 rest ih =>
    intro l hl a ha
    simp only [splitLines, if_pos rfl] at hl
    rcases List.mem_cons.mp hl with rfl | h2
    · simp at ha
    · exact List.mem_cons_of_mem _ (List.mem_cons_of_mem _ (ih l h2 a ha))
  | case3 c rest hne l0 ls0 heq ih =>
    intro l hl a ha
    simp only [splitLines, if_pos rfl, if_neg hne, heq] at hl
    rcases List.mem_cons.mp hl with rfl | h2
    · rcases List.mem_cons.mp ha with rfl | h3
      · exact List.mem_cons_self _ _
      · exact List.mem_cons_of_mem _ (ih l0 (heq ▸ List.mem_cons_self _ _) a h3)
    · exact List.mem_cons_of_mem _ (ih l (heq ▸ List.mem_cons_of_mem _ h2) a ha)
  | case4 c rest hne heq ih =>
    intro l hl a ha
    simp only [splitLines, if_pos rfl, if_neg hne, heq] at hl
    rcases List.mem_cons.mp hl with rfl | h2
    · simp only [List.mem_singleton] at ha
      subst ha
      exact List.mem_cons_self _ _
    · simp at h2
  | case5 =>
    intro l hl a ha
    simp [splitLines] at hl
    subst hl
    simp only [List.mem_singleton] at ha
    subst ha
    exact List.mem_cons_self _ _
  | case6 tail hne ih =>
    intro l hl a ha
    rw [splitLines.eq_def] at hl
    dsimp only [] at hl
    rw [if_neg (by decide : ¬('\n' = '\x0d')), if_pos rfl] at hl
    rcases List.mem_cons.mp hl with rfl | h2
    · simp at ha
    · exact List.mem_cons_of_mem _ (ih l h2 a ha)
  | case7 c tail h1 h2 l0 ls0 heq ih =>
    intro l hl a ha
    rw [splitLines.eq_def] at hl
    dsimp only [] at hl
    rw [if_neg h1, if_neg h2, heq] at hl
    rcases List.mem_cons.mp hl with rfl | hl2
    · rcases List.mem_cons.mp ha with rfl | h3
      · exact List.mem_cons_self _ _
      · exact List.mem_cons_of_mem _ (ih l0 (heq ▸ List.mem_cons_self _ _) a h3)
    · exact List.mem_cons_of_mem _ (ih l (heq ▸ List.mem_cons_of_mem _ hl2) a ha)
  | case8 c tail h1 h2 heq ih =>
    intro l hl a ha
    rw [splitLines.eq_def] at hl
    dsimp only [] at hl
    rw [if_neg h1, if_neg h2, heq] at hl
    rcases List.mem_cons.mp hl with rfl | hl2
    · simp only [List.mem_singleton] at ha
      subst ha
      exact List.mem_cons_self _ _
    · simp at hl2

theorem trimWs_subset (s : List Char) : trimWs s ⊆ s := by
  intro a ha
  unfold trimWs at ha
  rw [List.mem_reverse] at ha
  have h1 := mem_of_mem_dropWhile ha
  rw [List.mem_reverse] at h1
  exact mem_of_mem_dropWhile h1

theorem stripQuotes_subset (s : List Char) : stripQuotes s ⊆ s := by
  intro a ha
  unfold stripQuotes at ha
  rw [List.mem_reverse] at ha
  have h1 := mem_of_mem_dropWhile ha
  rw [List.mem_reverse] at h1
  exact mem_of_mem_dropWhile h1

theorem joinNL_not_mem (x : Char) (hx : x ≠ '\n') :
    ∀ ls : List (List Char), (∀ l ∈ ls, x ∉ l) → x ∉ joinNL ls := by
  intro ls
  induction ls with
  | nil => intro _; simp [joinNL]
  | cons l ls ih =>
    intro h
    cases ls with
    | nil => simpa [joinNL] using h l (List.mem_cons_self _ _)
    | cons l2 ls2 =>
      simp only [joinNL]
      intro hmem
      rcases List.mem_append.mp hmem with h1 | h2
      · exact h l (List.mem_cons_self _ _) h1
      · rcases List.mem_cons.mp h2 with rfl | h3
        · exact hx rfl
        · exact ih (fun l' hl' => h l' (List.mem_cons_of_mem _ hl')) h3

theorem stripTextBlocks_nd {s : List Char} (h : '$' ∉ s) : '$' ∉ stripTextBlocks s := by
  unfold stripTextBlocks
  exact scanSt_not_mem_empty _ _ _ (fun st s k rep st' hs => matchTextBlock_rep s k rep st' hs) _ _ _ h

theorem stripFracBlocks_nd {s : List Char} (h : '$' ∉ s) : '$' ∉ stripFracBlocks s := by
  unfold stripFracBlocks
  exact scanSt_not_mem_empty _ _ _ (fun st s k rep st' hs => matchFracBlock_rep s k rep st' hs) _ _ _ h

theorem stripLineComments_nd {s : List Char} (h : '$' ∉ s) : '$' ∉ stripLineComments s := by
  unfold stripLineComments
  exact scanSt_not_mem_empty _ _ _ (fun st s k rep st' hs => matchLineComment_rep s k rep st' hs) _ _ _ h

theorem stripBlockComments_nd {s : List Char} (h : '$' ∉ s) : '$' ∉ stripBlockComments s := by
  unfold stripBlockComments
  exact scanSt_not_mem_empty _ _ _ (fun st s k rep st' hs => matchBlockComment_rep s k rep st' hs) _ _ _ h

theorem stripHashComments_nd {s : List Char} (h : '$' ∉ s) : '$' ∉ stripHashComments s := by
  unfold stripHashComments
  exact scanSt_not_mem_empty _ _ _ (fun st s k rep st' hs => matchHashComment_rep s k rep st' hs) _ _ _ h

theorem stripStepNumbers_nd {s : List Char} (h : '$' ∉ s) : '$' ∉ stripStepNumbers s := by
  unfold stripStepNumbers
  exact scanSt_not_mem_empty _ _ _ matchStepNumber_rep _ _ _ h

theorem stripStepLabels_nd {s : List Char} (h : '$' ∉ s) : '$' ∉ stripStepLabels s := by
  unfold stripStepLabels
  exact scanSt_not_mem_empty _ _ _ matchStepLabel_rep _ _ _ h

theorem stripDiscourseWords_nd {s : List Char} (h : '$' ∉ s) : '$' ∉ stripDiscourseWords s := by
  unfold stripDiscourseWords
  exact scanSt_not_mem_empty _ _ _ (matchWordAlts_rep discourseWords) _ _ _ h

theorem stripDiscoursePhrases_nd {s : List Char} (h : '$' ∉ s) : '$' ∉ stripDiscoursePhrases s := by
  unfold stripDiscoursePhrases
  exact scanSt_not_mem_empty _ _ _ (matchWordAlts_rep discoursePhrases) _ _ _ h

theorem blankProseLines_nd {s : List Char} (h : '$' ∉ s) : '$' ∉ blankProseLines s := by
  unfold blankProseLines
  exact blankProseAux_not_mem _ _ _ _ h

theorem stripParenAsides_nd {s : List Char} (h : '$' ∉ s) : '$' ∉ stripParenAsides s := by
  unfold stripParenAsides
  exact scanSt_not_mem_empty _ _ _ (fun st s k rep st' hs => matchParenAside_rep s k rep st' hs) _ _ _ h

theorem stripQualNouns_nd {s : List Char} (h : '$' ∉ s) : '$' ∉ stripQualNouns s := by
  unfold stripQualNouns
  exact scanSt_not_mem_empty _ _ _ matchQualNoun_rep _ _ _ h

theorem stripTrailingPunct_nd {s : List Char} (h : '$' ∉ s) : '$' ∉ stripTrailingPunct s := by
  unfold stripTrailingPunct
  exact scanSt_not_mem_empty _ _ _ (fun st s k rep st' hs => matchTrailPunct_rep s k rep st' hs) _ _ _ h

theorem stripLeadingBullets_nd {s : List Char} (h : '$' ∉ s) : '$' ∉ stripLeadingBullets s := by
  unfold stripLeadingBullets
  exact scanSt_not_mem_empty _ _ _ matchLeadBullet_rep _ _ _ h

theorem stripTrailingBullets_nd {s : List Char} (h : '$' ∉ s) : '$' ∉ stripTrailingBullets s := by
  unfold stripTrailingBullets
  exact scanSt_not_mem_empty _ _ _ (fun st s k rep st' hs => matchTrailBullet_rep s k rep st' hs) _ _ _ h

theorem normalizeWhitespace_nd {s : List Char} (h : '$' ∉ s) : '$' ∉ normalizeWhitespace s := by
  unfold normalizeWhitespace
  exact collapseRuns_not_mem _ _ (by decide) _ _ h

theorem joinLetterDigit_nd {s : List Char} (h : '$' ∉ s) : '$' ∉ joinLetterDigit s := by
  unfold joinLetterDigit
  exact scanSt_not_mem_sub _ _ _ matchLetterDigit_sub _ _ _ h

theorem joinLetterSub_nd {s : List Char} (h : '$' ∉ s) : '$' ∉ joinLetterSub s := by
  unfold joinLetterSub
  exact scanSt_not_mem_sub _ _ _ matchLetterSub_sub _ _ _ h

theorem joinGreekDigit_nd {s : List Char} (h : '$' ∉ s) : '$' ∉ joinGreekDigit s := by
  unfold joinGreekDigit
  exact scanSt_not_mem_sub _ _ _ (fun st s k rep st' hs => matchGreekDigit_sub s k rep st' hs) _ _ _ h

theorem joinGreekSub_nd {s : List Char} (h : '$' ∉ s) : '$' ∉ joinGreekSub s := by
  unfold joinGreekSub
  exact scanSt_not_mem_sub _ _ _ (fun st s k rep st' hs => matchGreekSub_sub s k rep st' hs) _ _ _ h

theorem joinLetterWord_nd {s : List Char} (h : '$' ∉ s) : '$' ∉ joinLetterWord s := by
  unfold joinLetterWord
  exact scanSt_not_mem_sub _ _ _ matchLetterWord_sub _ _ _ h

theorem stripTrailCommas_nd {s : List Char} (h : '$' ∉ s) : '$' ∉ stripTrailCommas s := by
  unfold stripTrailCommas
  exact scanSt_not_mem_empty _ _ _ (fun st s k rep st' hs => matchTrailComma_rep s k rep st' hs) _ _ _ h

theorem stripQuotes_nd {s : List Char} (h : '$' ∉ s) : '$' ∉ stripQuotes s :=
  fun hm => h (stripQuotes_subset s hm)

theorem stripTicks_nd {s : List Char} (h : '$' ∉ s) : '$' ∉ stripTicks s :=
  fun hm => h (List.mem_of_mem_filter hm)

theorem squeezeSpaces_nd {s : List Char} (h : '$' ∉ s) : '$' ∉ squeezeSpaces s := by
  unfold squeezeSpaces
  exact collapseRuns_not_mem _ _ (by decide) _ _ h

theorem trimWs_nd {s : List Char} (h : '$' ∉ s) : '$' ∉ trimWs s :=
  fun hm => h (trimWs_subset s hm)

theorem data_mk (l : List Char) : (String.mk l).data = l := rfl

theorem normalizeVariables_nd {l : List Char} (h : '$' ∉ l) : '$' ∉ normalizeVariables l := by
  unfold normalizeVariables
  exact trimWs_nd (squeezeSpaces_nd (stripTicks_nd (stripQuotes_nd (stripTrailCommas_nd
    (joinLetterWord_nd (joinGreekSub_nd (joinGreekDigit_nd (joinLetterSub_nd
      (joinLetterDigit_nd (stripQualNouns_nd h))))))))))

theorem stageA_no_dollar (s : List Char) : '$' ∉ stageA s := by
  unfold stageA
  exact normalizeWhitespace_nd (stripTrailingBullets_nd (stripLeadingBullets_nd
    (stripTrailingPunct_nd (stripQualNouns_nd (stripParenAsides_nd (blankProseLines_nd
      (stripDiscoursePhrases_nd (stripDiscourseWords_nd (stripStepLabels_nd
        (stripStepNumbers_nd (stripHashComments_nd (stripBlockComments_nd
          (stripLineComments_nd (stripFracBlocks_nd (stripTextBlocks_nd
            (stripDollars_no_dollar (stripLatexBrackets s)))))))))))))))))

/-! ### Claim theorems (concrete evaluations) -/

/-- Claim C1: the spec asserts that sanitizing `"\[E = mc^2\]"` yields a
line containing `E = mc^2` with no literal `\[`/`\]` left, matching the
comment `// Remove \[ and \]` in the code.  The regex `/\\?\[\\?\]/g`
actually matches only adjacent (possibly escaped) bracket pairs, so on
this input the delimiters survive unchanged: the claim states the
documented intent and the code contradicts it. -/
theorem c1_latex_delimiters_survive :
    sanitizeOutput "\\[E = mc^2\\]" = "\\[E = mc^2\\]" := by decide

/-- Claim C2 counterexample: the line `"spectrophotometer"` names
equipment and has no arithmetic symbol, yet it is kept verbatim (its
letter `c` is in the line-123 variable-letter class), refuting "the
sanitizer drops the line". -/
theorem c2_equipment_no_arith_kept :
    sanitizeOutput "spectrophotometer" = "spectrophotometer" := by decide

/-- Claim C2 amended: an equipment line containing arithmetic is
retained; an equipment line with no arithmetic is dropped only when the
name has no character of the math allow-list (e.g. `voltmeter`), while
names containing an allow-list letter (e.g. the `c` of
`spectrophotometer`) are kept even without arithmetic. -/
theorem c2_equipment_gating_amended :
    sanitizeOutput "voltmeter" = "" ∧
    sanitizeOutput "spectrophotometer: A = 0.45" = "spectrophotometer: A = 0.45" ∧
    sanitizeOutput "spectrophotometer" = "spectrophotometer" :=
  ⟨by decide, by decide, by decide⟩

/-- Claim C3: `"C"` does pass through unchanged, but `"True"` is blanked
by the line-81 pass (none of `T`,`r`,`u`,`e` is in the allow-list class),
so the later `Keep True/False` check of line 117 never sees it; the code
contradicts its own documented intent for `"True"`. -/
theorem c3_choice_kept_but_true_blanked :
    sanitizeOutput "C" = "C" ∧ sanitizeOutput "True" = "" :=
  ⟨by decide, by decide⟩

/-- Claim C4 counterexample: `\frac{a}{b}` is removed together with both
operand groups, so no operand text survives, refuting "the text of the
two operand groups A and B survives in the output". -/
theorem c4_frac_operands_lost :
    sanitizeOutput "x = \\frac\x7ba\x7d\x7bb\x7d" = "x =" ∧
    'a' ∉ (sanitizeOutput "x = \\frac\x7ba\x7d\x7bb\x7d").data ∧
    'b' ∉ (sanitizeOutput "x = \\frac\x7ba\x7d\x7bb\x7d").data :=
  ⟨by decide, by decide, by decide⟩

/-- Claim C4 amended: the `\frac` stage deletes the entire macro,
operand groups included; neither operand's text survives from the
macro. -/
theorem c4_frac_macro_amended :
    sanitizeOutput "y = \\frac\x7bm\x7d\x7bn\x7d" = "y =" ∧
    'm' ∉ (sanitizeOutput "y = \\frac\x7bm\x7d\x7bn\x7d").data ∧
    'n' ∉ (sanitizeOutput "y = \\frac\x7bm\x7d\x7bn\x7d").data :=
  ⟨by decide, by decide, by decide⟩

/-- Claim C5 counterexample: the sanitizer is not idempotent; the
trailing-comma pass of line 156 removes one trailing comma per
application, so `"a,,"` maps to `"a,"` and then to `"a"`. -/
theorem c5_not_idempotent :
    sanitizeOutput (sanitizeOutput "a,,") ≠ sanitizeOutput "a,," := by decide

/-- Claim C5 amended: idempotence fails in general, but a line already in
the canonical form `a = n/m` is a fixed point of the sanitizer, so
re-sanitizing it does not mutate it. -/
theorem c5_idempotent_on_canonical :
    sanitizeOutput "a = n/m" = "a = n/m" ∧
    sanitizeOutput (sanitizeOutput "a = n/m") = sanitizeOutput "a = n/m" :=
  ⟨by decide, by decide⟩

/-- Claim C7: the sanitizer is a pure function of its input string: the
regex state of the two hoisted `/g` patterns is created afresh inside
each invocation (the filter starts from `lastIndex = 0` both times), so
identical inputs always produce identical outputs. -/
theorem c7_deterministic (s₁ s₂ : String) (h : s₁ = s₂) :
    sanitizeOutput s₁ = sanitizeOutput s₂ := by rw [h]

theorem c7_deterministic_witness :
    ("F = ma" : String) = "F = ma" ∧
    sanitizeOutput "F = ma" = sanitizeOutput "F = ma" :=
  ⟨rfl, c7_deterministic "F = ma" "F = ma" rfl⟩

/-- Claim C8: a single letter rejoins a following digit (`v 0` → `v0`,
line 141) and a letter rejoins a following subscript word before an
operator (`F net` → `Fnet`, line 144), exactly as the spec's example
states. -/
theorem c8_variable_joining :
    sanitizeOutput "v 0 = 5\nF net = 10" = "v0 = 5\nFnet = 10" := by decide

/-- Claim C9: the keep decision of the line filter is a pure per-line
predicate.  The only shared state in the source — the `lastIndex` of the
hoisted `/g` regexes `equipmentPattern` and `methodPattern` — can never
change the decision: a line reaching those checks has no character of the
line-121 math class, hence no `[0-9+\-*/=()]` character either, so both
equipment/method conjunctions are false whatever the regex state.  The
decision therefore equals a pure function of the line, and the threaded
filter equals a plain `List.filter`; in particular two inputs containing
the same trimmed line give it the same keep/discard decision. -/
theorem c9_keep_decision_per_line :
    (∀ (st : Nat × Nat) (l : List Char), (keepLineCore l st).1 = keepLine l) ∧
    (∀ (st : Nat × Nat) (ls : List (List Char)), filterMapSt st ls = ls.filter keepLine) :=
  ⟨fun st l => keepLineCore_fst l st, fun st ls => filterMapSt_eq st ls⟩

/-- Claim C10: the sanitizer's output never contains a dollar sign, for
any input: the `/\$\$?/g` pass removes every `$` (paired or lone), and
every later stage only deletes characters, re-inserts captured input
characters, or inserts spaces and newlines. -/
theorem c10_no_dollar_in_output (s : String) : '$' ∉ (sanitizeOutput s).data := by
  unfold sanitizeOutput
  split
  · simp
  · show '$' ∉ (String.mk (trimWs (joinNL ((filterMapSt (0, 0)
      ((splitLines (stageA s.data)).map trimWs)).map normalizeVariables)))).data
    have hA : '$' ∉ stageA s.data := stageA_no_dollar _
    have hlines : ∀ l ∈ (splitLines (stageA s.data)).map trimWs, '$' ∉ l := by
      intro l hl
      rw [List.mem_map] at hl
      obtain ⟨l0, hl0, rfl⟩ := hl
      intro hmem
      exact hA (splitLines_mem _ l0 hl0 _ (trimWs_subset _ hmem))
    have hfilt : ∀ l ∈ filterMapSt (0, 0) ((splitLines (stageA s.data)).map trimWs),
        '$' ∉ l := by
      intro l hl
      rw [filterMapSt_eq] at hl
      exact hlines l (List.mem_of_mem_filter hl)
    have hnorm : ∀ l ∈ (filterMapSt (0, 0)
        ((splitLines (stageA s.data)).map trimWs)).map normalizeVariables, '$' ∉ l := by
      intro l hl
      rw [List.mem_map] at hl
      obtain ⟨l0, hl0, rfl⟩ := hl
      exact normalizeVariables_nd (hfilt l0 hl0)
    have hjoin : '$' ∉ joinNL ((filterMapSt (0, 0)
        ((splitLines (stageA s.data)).map trimWs)).map normalizeVariables) :=
      joinNL_not_mem '$' (by decide) _ hnorm
    rw [data_mk]
    exact trimWs_nd hjoin


theorem wsCharFacts {c : Char} (h : isJsSpace c = true) :
    c ≠ '\\' ∧ c ≠ '[' ∧ c ≠ '$' ∧ c ≠ '/' ∧ c ≠ '#' ∧
    isAsciiAlpha c = false ∧ jsCanon c = c ∧ allowChar c = false := by
  have hc : c = '\t' ∨
      c = '\n' ∨
      c = '\x0b' ∨
      c = '\x0c' ∨
      c = '\r' ∨
      c = ' ' ∨
      c = '\u00A0' ∨
      c = '\u1680' ∨
      c = '\u2000' ∨
      c = '\u2001' ∨
      c = '\u2002' ∨
      c = '\u2003' ∨
      c = '\u2004' ∨
      c = '\u2005' ∨
      c = '\u2006' ∨
      c = '\u2007' ∨
      c = '\u2008' ∨
      c = '\u2009' ∨
      c = '\u200A' ∨
      c = '\u2028' ∨
      c = '\u2029' ∨
      c = '\u202F' ∨
      c = '\u205F' ∨
      c = '\u3000' ∨
      c = '\uFEFF' := by
    simpa [isJsSpace, Bool.or_eq_true, decide_eq_true_eq, or_assoc] using h
  rcases hc with rfl | rfl | rfl | rfl | rfl | rfl | rfl | rfl | rfl | rfl | rfl | rfl | rfl | rfl | rfl | rfl | rfl | rfl | rfl | rfl | rfl | rfl | rfl | rfl | rfl <;> decide

theorem takeWhile_all {p : Char → Bool} :
    ∀ (l : List Char), (∀ a ∈ l, p a = true) → l.takeWhile p = l := by
  intro l
  induction l with
  | nil => intro _; rfl
  | cons c rest ih =>
    intro h
    rw [List.takeWhile_cons, h c (List.mem_cons_self _ _)]
    simp only [if_true]
    rw [ih (fun a ha => h a (List.mem_cons_of_mem _ ha))]

theorem scanSt_id {σ : Type} (m : σ → List Char → Option (Nat × List Char × σ))
    (upd : Char → σ)
    (hm : ∀ st s, (∀ a ∈ s, isJsSpace a = true) → m st s = none) :
    ∀ fuel st s, (∀ a ∈ s, isJsSpace a = true) → scanSt m upd fuel st s = s := by
  intro fuel
  induction fuel with
  | zero => intro st s _; rfl
  | succ n ih =>
    intro st s h
    cases s with
    | nil => rfl
    | cons c rest =>
      simp only [scanSt, hm st (c :: rest) h]
      rw [ih (upd c) rest (fun a ha => h a (List.mem_cons_of_mem _ ha))]

theorem matchBracketPair_ws (s : List Char) (h : ∀ a ∈ s, isJsSpace a = true) :
    matchBracketPair s = none := by
  cases s with
  | nil => rfl
  | cons c rest =>
    obtain ⟨h1, h2, _⟩ := wsCharFacts (h c (List.mem_cons_self _ _))
    simp only [matchBracketPair]
    rw [if_neg h1, if_neg h2]

theorem matchDollar_ws (s : List Char) (h : ∀ a ∈ s, isJsSpace a = true) :
    matchDollar s = none := by
  cases s with
  | nil => rfl
  | cons c rest =>
    obtain ⟨_, _, h3, _⟩ := wsCharFacts (h c (List.mem_cons_self _ _))
    simp only [matchDollar]
    rw [if_neg h3]

theorem matchTextBlock_ws (s : List Char) (h : ∀ a ∈ s, isJsSpace a = true) :
    matchTextBlock s = none := by
  cases s with
  | nil => rfl
  | cons c rest =>
    obtain ⟨h1, _⟩ := wsCharFacts (h c (List.mem_cons_self _ _))
    simp only [matchTextBlock]
    rw [if_neg h1]

theorem matchFracBlock_ws (s : List Char) (h : ∀ a ∈ s, isJsSpace a = true) :
    matchFracBlock s = none := by
  cases s with
  | nil => rfl
  | cons c rest =>
    obtain ⟨h1, _⟩ := wsCharFacts (h c (List.mem_cons_self _ _))
    simp only [matchFracBlock]
    rw [if_neg h1]

theorem matchLineComment_ws (s : List Char) (h : ∀ a ∈ s, isJsSpace a = true) :
    matchLineComment s = none := by
  cases s with
  | nil => rfl
  | cons c rest =>
    obtain ⟨_, _, _, h4, _⟩ := wsCharFacts (h c (List.mem_cons_self _ _))
    simp only [matchLineComment]
    rw [if_neg h4]

theorem matchBlockComment_ws (s : List Char) (h : ∀ a ∈ s, isJsSpace a = true) :
    matchBlockComment s = none := by
  cases s with
  | nil => rfl
  | cons c rest =>
    obtain ⟨_, _, _, h4, _⟩ := wsCharFacts (h c (List.mem_cons_self _ _))
    simp only [matchBlockComment]
    rw [if_neg h4]

theorem matchHashComment_ws (s : List Char) (h : ∀ a ∈ s, isJsSpace a = true) :
    matchHashComment s = none := by
  cases s with
  | nil => rfl
  | cons c rest =>
    obtain ⟨_, _, _, _, h5, _⟩ := wsCharFacts (h c (List.mem_cons_self _ _))
    simp only [matchHashComment]
    rw [if_neg h5]

theorem matchStepNumber_ws (st : Bool) (s : List Char)
    (h : ∀ a ∈ s, isJsSpace a = true) : matchStepNumber st s = none := by
  cases st with
  | false => rfl
  | true =>
    have hw : s.takeWhile isJsSpace = s := takeWhile_all s h
    simp [matchStepNumber, hw, List.drop_length]

theorem ciStarts_alpha_ws {a : Char} {pat cs : List Char} {c : Char}
    (ha : isAsciiAlpha (jsCanon a) = true) (hc : isAsciiAlpha c = false)
    (hcanon : jsCanon c = c) : ciStarts (a :: pat) (c :: cs) = none := by
  unfold ciStarts
  rw [if_neg]
  intro he
  rw [hcanon] at he
  rw [he] at ha
  rw [ha] at hc
  cases hc

theorem matchStepLabel_ws (st : Bool) (s : List Char)
    (h : ∀ a ∈ s, isJsSpace a = true) : matchStepLabel st s = none := by
  cases st with
  | true => rfl
  | false =>
    cases s with
    | nil => rfl
    | cons c rest =>
      obtain ⟨_, _, _, _, _, hal, hcanon, _⟩ := wsCharFacts (h c (List.mem_cons_self _ _))
      have hci : ciStarts ['S', 't', 'e', 'p'] (c :: rest) = none :=
        ciStarts_alpha_ws (by decide) hal hcanon
      simp [matchStepLabel, hci]

theorem tryAlts_ws {alts : List (List Char)} {s : List Char}
    (h : ∀ a ∈ s, isJsSpace a = true) :
    alts.all headCanonAlpha = true → tryAlts alts s = none := by
  induction alts with
  | nil => intro _; rfl
  | cons alt more ih =>
    intro halts
    simp only [List.all_cons, Bool.and_eq_true] at halts
    obtain ⟨h1, h2⟩ := halts
    cases alt with
    | nil => simp [headCanonAlpha] at h1
    | cons a as =>
      have hci : ciStarts (a :: as) s = none := by
        cases s with
        | nil => rfl
        | cons c cs =>
          obtain ⟨_, _, _, _, _, hal, hcanon, _⟩ := wsCharFacts (h c (List.mem_cons_self _ _))
          exact ciStarts_alpha_ws (by simpa [headCanonAlpha] using h1) hal hcanon
      simp only [tryAlts, hci]
      exact ih h2

theorem matchWordAlts_ws (alts : List (List Char))
    (halts : alts.all headCanonAlpha = true) (st : Bool) (s : List Char)
    (h : ∀ a ∈ s, isJsSpace a = true) : matchWordAlts alts st s = none := by
  cases st with
  | true => rfl
  | false => simp [matchWordAlts, tryAlts_ws h halts]

theorem blankProseLines_ws (s : List Char) (h : ∀ a ∈ s, isJsSpace a = true) :
    blankProseLines s = [] := by
  unfold blankProseLines
  cases s with
  | nil => rfl
  | cons c rest =>
    have hrun : (c :: rest).takeWhile (fun x => !allowChar x) = c :: rest := by
      apply takeWhile_all
      intro a ha
      rw [(wsCharFacts (h a ha)).2.2.2.2.2.2.2]
      rfl
    simp only [List.length_cons, blankProseAux, hrun]
    simp

theorem stripLatexBrackets_ws (s : List Char) (h : ∀ a ∈ s, isJsSpace a = true) :
    stripLatexBrackets s = s := by
  unfold stripLatexBrackets
  exact scanSt_id _ _ (fun st s' h' => matchBracketPair_ws s' h') _ _ _ h

theorem stripDollars_ws (s : List Char) (h : ∀ a ∈ s, isJsSpace a = true) :
    stripDollars s = s := by
  unfold stripDollars
  exact scanSt_id _ _ (fun st s' h' => matchDollar_ws s' h') _ _ _ h

theorem stripTextBlocks_ws (s : List Char) (h : ∀ a ∈ s, isJsSpace a = true) :
    stripTextBlocks s = s := by
  unfold stripTextBlocks
  exact scanSt_id _ _ (fun st s' h' => matchTextBlock_ws s' h') _ _ _ h

theorem stripFracBlocks_ws (s : List Char) (h : ∀ a ∈ s, isJsSpace a = true) :
    stripFracBlocks s = s := by
  unfold stripFracBlocks
  exact scanSt_id _ _ (fun st s' h' => matchFracBlock_ws s' h') _ _ _ h

theorem stripLineComments_ws (s : List Char) (h : ∀ a ∈ s, isJsSpace a = true) :
    stripLineComments s = s := by
  unfold stripLineComments
  exact scanSt_id _ _ (fun st s' h' => matchLineComment_ws s' h') _ _ _ h

theorem stripBlockComments_ws (s : List Char) (h : ∀ a ∈ s, isJsSpace a = true) :
    stripBlockComments s = s := by
  unfold stripBlockComments
  exact scanSt_id _ _ (fun st s' h' => matchBlockComment_ws s' h') _ _ _ h

theorem stripHashComments_ws (s : List Char) (h : ∀ a ∈ s, isJsSpace a = true) :
    stripHashComments s = s := by
  unfold stripHashComments
  exact scanSt_id _ _ (fun st s' h' => matchHashComment_ws s' h') _ _ _ h

theorem stripStepNumbers_ws (s : List Char) (h : ∀ a ∈ s, isJsSpace a = true) :
    stripStepNumbers s = s := by
  unfold stripStepNumbers
  exact scanSt_id _ _ matchStepNumber_ws _ _ _ h

theorem stripStepLabels_ws (s : List Char) (h : ∀ a ∈ s, isJsSpace a = true) :
    stripStepLabels s = s := by
  unfold stripStepLabels
  exact scanSt_id _ _ matchStepLabel_ws _ _ _ h

theorem stripDiscourseWords_ws (s : List Char) (h : ∀ a ∈ s, isJsSpace a = true) :
    stripDiscourseWords s = s := by
  unfold stripDiscourseWords
  exact scanSt_id _ _ (matchWordAlts_ws discourseWords (by decide)) _ _ _ h

theorem stripDiscoursePhrases_ws (s : List Char) (h : ∀ a ∈ s, isJsSpace a = true) :
    stripDiscoursePhrases s = s := by
  unfold stripDiscoursePhrases
  exact scanSt_id _ _ (matchWordAlts_ws discoursePhrases (by decide)) _ _ _ h

theorem stageA_ws (s : List Char) (h : ∀ a ∈ s, isJsSpace a = true) :
    stageA s = [] := by
  unfold stageA
  rw [stripLatexBrackets_ws s h, stripDollars_ws s h, stripTextBlocks_ws s h,
    stripFracBlocks_ws s h, stripLineComments_ws s h, stripBlockComments_ws s h,
    stripHashComments_ws s h, stripStepNumbers_ws s h, stripStepLabels_ws s h,
    stripDiscourseWords_ws s h, stripDiscoursePhrases_ws s h, blankProseLines_ws s h]
  rfl

theorem sanitize_ws (s : String) (h : s.data.all isJsSpace = true) :
    sanitizeOutput s = "" := by
  unfold sanitizeOutput
  split
  · rfl
  · have hall : ∀ a ∈ s.data, isJsSpace a = true := by
      intro a ha
      exact List.all_eq_true.mp h a ha
    rw [stageA_ws s.data hall]
    rfl


/-- Claim C6: the sanitizer is total — it is a plain function on strings
in this embedding, with no failure channel — and a falsy (empty)
`RawResponse` short-circuits to `""` before any stage runs.  Inputs with
no extractable mathematical content also produce the empty string: this
holds for every whitespace-only string (the line-81 pass blanks them),
and for the spec's pure-prose example sentence. -/
theorem c6_total_empty_on_no_math :
    sanitizeOutput "" = "" ∧
    (∀ s : String, s.data.all isJsSpace = true → sanitizeOutput s = "") ∧
    sanitizeOutput "The total number of apples is calculated by adding them." = "" :=
  ⟨by decide, fun s h => sanitize_ws s h, by decide⟩

theorem c6_total_empty_on_no_math_witness :
    (("   " : String).data.all isJsSpace = true) ∧ sanitizeOutput "   " = "" :=
  ⟨by decide, c6_total_empty_on_no_math.2.1 "   " (by decide)⟩

end Server
